import Mathlib

/-!
# Verification of the Intercom dispatch engine against its specification

Shallow embedding of the message-dispatch core of the Intercom repository:
configuration (`src/config.ts`), the router helpers (`router.ts`), the
stream accumulator (`src/stream-accumulator.ts`), the group message
processor (`src/index.ts`, `processGroupMessages` and the frame callback),
the sandbox-side IPC tools (`container/shared/ipc-tools` and the query
bridge), and the `/model` command handler.

Strings are modelled as Lean `String`/`List Char`; JavaScript regular
expressions are modelled by a small matcher covering exactly the
constructs the code generates (`^` anchor, escaped/plain literal
characters, `\b` word boundary, the `i` flag).  Host I/O (channel sends,
database writes, timers) is modelled as explicit effect lists; the
filesystem is modelled as a partial map updated by an event trace.
-/

namespace Intercom


/-! ## Basic character/string helpers (JS semantics) -/

/-- JS `\w` word character class: `[A-Za-z0-9_]`. -/
def isWordChar (c : Char) : Bool :=
  c.isAlphanum || c == '_'

/-- Word-character test lifted to an optional "context" character;
`none` (string edge) counts as a non-word position. -/
def wordOpt : Option Char → Bool
  | none => false
  | some c => isWordChar c

/-- JS `String.prototype.trim` on a character list (ASCII whitespace). -/
def jsTrim (l : List Char) : List Char :=
  ((l.dropWhile Char.isWhitespace).reverse.dropWhile Char.isWhitespace).reverse

/-- JS `String.prototype.trim`. -/
def jsTrimS (s : String) : String :=
  ⟨jsTrim s.data⟩

/-- JS `String.prototype.toLowerCase` (ASCII, character-wise). -/
def jsToLower (s : String) : String :=
  ⟨s.data.map Char.toLower⟩

/-- JS `String.prototype.startsWith`. -/
def startsWithStr (s pre : String) : Bool :=
  pre.data.isPrefixOf s.data

/-! ## `src/config.ts` -/

def MAIN_GROUP_FOLDER : String := "main"

inductive Runtime
  | claude
  | gemini
  | codex
deriving DecidableEq, Repr

structure ModelEntry where
  id : String
  runtime : Runtime
  displayName : String
deriving DecidableEq, Repr

def MODEL_CATALOG : List ModelEntry :=
  [ ⟨"claude-opus-4-6", .claude, "Claude Opus 4.6"⟩,
    ⟨"claude-sonnet-4-6", .claude, "Claude Sonnet 4.6"⟩,
    ⟨"gemini-3.1-pro", .gemini, "Gemini 3.1 Pro"⟩,
    ⟨"gemini-2.5-flash", .gemini, "Gemini 2.5 Flash"⟩,
    ⟨"gpt-5.1-codex", .codex, "GPT-5.1 Codex"⟩ ]

def DEFAULT_MODEL : String := "claude-opus-4-6"

def DEFAULT_RUNTIME : Runtime := .claude

def findModel (id : String) : Option ModelEntry :=
  MODEL_CATALOG.find? (fun m => m.id == id)

/-- `runtimeForModel` from `config.ts`: catalog lookup first, then
prefix-based inference on the lowercased id, then the default runtime. -/
def runtimeForModel (modelId : String) : Runtime :=
  match findModel modelId with
  | some e => e.runtime
  | none =>
    if startsWithStr (jsToLower modelId) "claude-" then .claude
    else if startsWithStr (jsToLower modelId) "gemini-" then .gemini
    else if startsWithStr (jsToLower modelId) "gpt-"
        || startsWithStr (jsToLower modelId) "codex-"
        || startsWithStr (jsToLower modelId) "o1-"
        || startsWithStr (jsToLower modelId) "o3-"
        || startsWithStr (jsToLower modelId) "o4-" then .codex
    else DEFAULT_RUNTIME

/-! ## The trigger regular expression

`config.ts` builds `TRIGGER_PATTERN = new RegExp("^@" + escapeRegex(NAME) + "\\b", "i")`.
We embed `escapeRegex` and a matcher for the pattern language actually
generated: `^` anchor, `\b` word boundary, backslash-escaped literals and
plain literals, matched case-insensitively (the `i` flag). -/

/-- The characters escaped by `escapeRegex` in `config.ts`
(`[.*+?^$\x7b\x7d()|[\]\\]`). -/
def regexSpecialChars : List Char :=
  ['.', '*', '+', '?', '^', '$', '\x7b', '\x7d', '(', ')', '|', '[', ']', '\\']

def escapeRegexChar (c : Char) : List Char :=
  if regexSpecialChars.contains c then ['\\', c] else [c]

/-- `escapeRegex` from `config.ts`: `str.replace(/[.*+?^$\x7b\x7d()|[\]\\]/g, "\\$&")`. -/
def escapeRegex (s : List Char) : List Char :=
  s.flatMap escapeRegexChar

/-- Match a pattern (in the fragment of JS regex syntax produced for the
trigger) at the start of `s`, with `prev` the character immediately to the
left of the current position (`none` at the string start), case-insensitively. -/
def reMatch : List Char → Option Char → List Char → Bool
  | [], _, _ => true
  | p :: pr, prev, s =>
    if p = '^' then
      prev.isNone && reMatch pr prev s
    else if p = '\\' then
      match pr with
      | [] => false
      | q :: pr' =>
        if q = 'b' then
          (wordOpt prev != wordOpt s.head?) && reMatch pr' prev s
        else
          match s with
          | [] => false
          | c :: cs => (c.toLower == q.toLower) && reMatch pr' (some c) cs
    else
      match s with
      | [] => false
      | c :: cs => (c.toLower == p.toLower) && reMatch pr (some c) cs

/-- JS `RegExp.prototype.test` semantics: try a match at every start
position (`prev` tracks the character left of the position). -/
def reSearch (pat : List Char) : Option Char → List Char → Bool
  | prev, s =>
    reMatch pat prev s ||
      match s with
      | [] => false
      | c :: cs => reSearch pat (some c) cs

/-- The source text of `TRIGGER_PATTERN` for a given assistant name:
`"^@" + escapeRegex(name) + "\\b"`. -/
def triggerSource (name : String) : List Char :=
  '^' :: '@' :: (escapeRegex name.data ++ ['\\', 'b'])

/-- `TRIGGER_PATTERN.test s` for a given assistant name. -/
def triggerTest (name : String) (s : String) : Bool :=
  reSearch (triggerSource name) none s.data

/-! Spec-side description of the trigger pattern (from the claim's words):
the strings that begin with `'@'` followed by the assistant name, compared
case-insensitively, with a word boundary right after the name. -/

/-- Case-insensitive "begins with" (pattern characters taken literally). -/
def ciPrefix : List Char → List Char → Bool
  | [], _ => true
  | _ :: _, [] => false
  | p :: ps, c :: cs => (c.toLower == p.toLower) && ciPrefix ps cs

/-- Modelled from the spec sentence only (for comparison with
`triggerTest`): `s` begins, case-insensitively, with `'@'` followed by
`name`, and a word boundary falls immediately after that prefix. -/
def specTriggerMatch (name s : String) : Bool :=
  ciPrefix ('@' :: name.data) s.data &&
    (wordOpt ((s.data.take (name.data.length + 1)).getLast?)
      != wordOpt ((s.data.drop (name.data.length + 1)).head?))

/-! ## `router.ts`: XML escaping, message formatting, internal-tag stripping -/

/-- Replace every occurrence of the single character `c` in `l` by the
string `r` (JS `replace(/c/g, r)` for a single-character pattern). -/
def replaceChar (l : List Char) (c : Char) (r : List Char) : List Char :=
  l.flatMap (fun x => if x = c then r else [x])

/-- `escapeXml` from `router.ts`: chained global replaces of `&`, `<`, `>`, `"`. -/
def escapeXml (s : String) : String :=
  if s = "" then ""
  else
    let l0 := s.data
    let l1 := replaceChar l0 '&' "&amp;".data
    let l2 := replaceChar l1 '<' "&lt;".data
    let l3 := replaceChar l2 '>' "&gt;".data
    let l4 := replaceChar l3 '"' "&quot;".data
    ⟨l4⟩

/-- Inbound message record (fields of the `NewMessage` rows consumed by
the router; see `storeMessageDirect` in `index.ts` for the field list). -/
structure NewMessage where
  id : String
  chat_jid : String
  sender : String
  sender_name : String
  content : String
  timestamp : String
  is_from_me : Bool
  is_bot_message : Bool
deriving DecidableEq, Repr

/-- JS `Array.prototype.join('\n')`. -/
def joinLines : List String → String
  | [] => ""
  | [x] => x
  | x :: y :: t => x ++ "\n" ++ joinLines (y :: t)

/-- One `<message>` element of the prompt envelope (`router.ts`,
`formatMessages`). -/
def messageLine (m : NewMessage) : String :=
  "<message sender=\"" ++ escapeXml m.sender_name ++ "\" time=\"" ++ m.timestamp
    ++ "\">" ++ escapeXml m.content ++ "</message>"

/-- `formatMessages` from `router.ts`. -/
def formatMessages (messages : List NewMessage) : String :=
  "<messages>\n" ++ joinLines (messages.map messageLine) ++ "\n</messages>"

def openTag : List Char := "<internal>".data

def closeTag : List Char := "</internal>".data

/-- Scan for the first occurrence of `</internal>` and return the suffix
that follows it (the lazy `[\s\S]*?<\/internal>` step of the regex in
`stripInternalTags`). -/
def afterClose : List Char → Option (List Char)
  | [] => none
  | c :: cs =>
    if closeTag.isPrefixOf (c :: cs) then some ((c :: cs).drop closeTag.length)
    else afterClose cs

/-- The global-replace scan of
`text.replace(/<internal>[\s\S]*?<\/internal>/g, '')` (`router.ts`):
at each position, if `<internal>` starts here and a `</internal>` follows,
drop through the close tag and continue after it; otherwise keep the
character and move on.  The fuel argument (always at least the list
length) only makes the recursion structural. -/
def stripInternalGo : Nat → List Char → List Char
  | 0, l => l
  | _ + 1, [] => []
  | fuel + 1, c :: cs =>
    if openTag.isPrefixOf (c :: cs) then
      match afterClose ((c :: cs).drop openTag.length) with
      | some rest => stripInternalGo fuel rest
      | none => c :: stripInternalGo fuel cs
    else c :: stripInternalGo fuel cs

def stripInternalAux (l : List Char) : List Char :=
  stripInternalGo l.length l

/-- `stripInternalTags` from `router.ts`. -/
def stripInternalTags (text : String) : String :=
  ⟨jsTrim (stripInternalAux text.data)⟩

/-- `formatOutbound` from `router.ts`. -/
def formatOutbound (rawText : String) : String :=
  let text := stripInternalTags rawText
  if text = "" then "" else text

/-! ## `stream-accumulator.ts` -/

def MAX_MESSAGE_LENGTH : Nat := 4096

namespace StreamAccumulator

/-- The accumulator state reached by the time `finalize` runs: the id of
the progressively edited message (if the first flush created one) and the
tool-log lines gathered so far.  Timers and the flush chain are
synchronisation details with no effect on the finalize result. -/
structure State where
  messageId : Option String
  toolLines : List String
deriving DecidableEq, Repr

/-- The channel interactions `finalize` performs, in order. -/
inductive Action
  | edit (messageId content : String)
  | send (text : String)
deriving DecidableEq, Repr

/-- The tool-log prefix that `finalize` puts before the clean text. -/
def toolLog (st : State) : String :=
  if st.toolLines.isEmpty then "" else joinLines st.toolLines ++ "\n\n"

/-- `StreamAccumulator.finalize(rawResult)` from `stream-accumulator.ts`,
as the ordered list of channel calls it makes.  `editOk` is the boolean
the channel's `editMessage` returns when an edit is attempted. -/
def finalize (st : State) (rawResult : String) (editOk : Bool) : List Action :=
  let cleanText := stripInternalTags rawResult
  if cleanText = "" then []
  else
    let finalContent := toolLog st ++ cleanText
    match st.messageId with
    | some mid =>
      if finalContent.length ≤ MAX_MESSAGE_LENGTH then
        if editOk then [.edit mid finalContent]
        else [.edit mid finalContent, .send cleanText]
      else [.send cleanText]
    | none => [.send cleanText]

end StreamAccumulator

/-! ## `index.ts`: the frame callback and `processGroupMessages` -/

/-- One streaming `event` field of a sandbox output frame. -/
structure StreamEvent where
  type : String
  toolName : Option String
  toolInput : Option String
  text : Option String
deriving DecidableEq, Repr

/-- One decoded sandbox output frame (`ContainerOutput`).  Non-string
`result` values are serialized before reaching the callback, so `result`
is modelled as the resulting string. -/
structure ContainerOutput where
  status : String
  result : Option String
  newSessionId : Option String
  model : Option String
  error : Option String
  event : Option StreamEvent
deriving DecidableEq, Repr

/-- Host-side effects of the frame callback in `processGroupMessages`,
in program order.  `accToolStart`/`accTextDelta` buffer into the stream
accumulator, `accFinalize` finalizes it, `sendMessage` is a direct channel
send, `storeBotMessage` persists the Assistant Reply, `notifyIdle` pings
the queue. -/
inductive HostEffect
  | accToolStart (name input : String)
  | accTextDelta (text : String)
  | accFinalize (raw : String)
  | sendMessage (jid text : String)
  | storeBotMessage (jid text : String)
  | notifyIdle (jid : String)
deriving DecidableEq, Repr

/-- The flags the callback threads through the run. -/
structure FrameState where
  outputSentToUser : Bool
  hadError : Bool
deriving DecidableEq, Repr

/-- The frame callback passed to `runAgent` in `processGroupMessages`
(`index.ts`), as a pure transition on `FrameState` emitting effects.
Idle-timer resets and typing indicators are timing-only and elided. -/
def handleAgentOutput (useStreaming : Bool) (chatJid : String)
    (st : FrameState) (o : ContainerOutput) : FrameState × List HostEffect :=
  if o.event.isSome && useStreaming then
    let effs :=
      match o.event with
      | some ev =>
        if ev.type = "tool_start" then
          [HostEffect.accToolStart (ev.toolName.getD "Unknown") (ev.toolInput.getD "")]
        else if ev.type = "text_delta" && !(ev.text.getD "" = "") then
          [HostEffect.accTextDelta (ev.text.getD "")]
        else []
      | none => []
    (st, effs)
  else
    let resStep :=
      match o.result with
      | none => (st, ([] : List HostEffect))
      | some raw =>
        let text := stripInternalTags raw
        if text = "" then (st, [])
        else
          ({ st with outputSentToUser := true },
            (if useStreaming then [HostEffect.accFinalize raw]
             else [HostEffect.sendMessage chatJid text])
              ++ [HostEffect.storeBotMessage chatJid text])
    let st1 := resStep.1
    let effs1 := resStep.2
    let effs2 := if o.status = "success" then [HostEffect.notifyIdle chatJid] else []
    let st2 := if o.status = "error" then { st1 with hadError := true } else st1
    (st2, effs1 ++ effs2)

/-- Run the callback over the whole frame sequence of one sandbox
invocation, collecting effects in order. -/
def runFrames (useStreaming : Bool) (chatJid : String) :
    FrameState → List ContainerOutput → FrameState × List HostEffect
  | st, [] => (st, [])
  | st, o :: os =>
    let step := handleAgentOutput useStreaming chatJid st o
    let next := runFrames useStreaming chatJid step.1 os
    (next.1, step.2 ++ next.2)

/-- The group fields `processGroupMessages` reads (`RegisteredGroup`). -/
structure RegisteredGroup where
  name : String
  folder : String
  trigger : String
  requiresTrigger : Option Bool
  model : Option String
  runtime : Option Runtime
deriving DecidableEq, Repr

/-- Outcome record for one `processGroupMessages(chatJid)` call. -/
structure PgmOutcome where
  /-- a sandbox run was dispatched (the code advanced past the gates) -/
  spawned : Bool
  /-- value of `lastAgentTimestamp[chatJid]` while the run is in flight -/
  cursorDuringRun : String
  /-- value of `lastAgentTimestamp[chatJid]` when the call returns -/
  finalCursor : String
  /-- the boolean the call returns (false asks the queue to retry) -/
  success : Bool
  effects : List HostEffect
  outputSentToUser : Bool
  hadError : Bool
deriving DecidableEq, Repr

/-- `processGroupMessages` from `index.ts` as a pure function.

Inputs taken from the environment: `prevCursor` is
`lastAgentTimestamp[chatJid] || ''`; `missed` is
`getMessagesSince(chatJid, prevCursor)`; `useStreaming` is the
accumulator's `supportsStreaming`; `frames` is the sandbox frame
sequence; `agentResult` is what `runAgent` returns (`"error"` when the
final container output has error status or an exception was thrown,
`"success"` otherwise).  Elided as irrelevant to control flow: the
channel lookup (assumed found), the model-switch history injection into
the prompt, typing indicators and the idle timer. -/
def processGroupMessages (assistantName : String) (group : RegisteredGroup)
    (chatJid : String) (prevCursor : String) (missed : List NewMessage)
    (useStreaming : Bool) (frames : List ContainerOutput)
    (agentResult : String) : PgmOutcome :=
  if missed.isEmpty then
    ⟨false, prevCursor, prevCursor, true, [], false, false⟩
  else
    let isMainGroup := group.folder = MAIN_GROUP_FOLDER
    let hasTrigger := missed.any (fun m => triggerTest assistantName (jsTrimS m.content))
    if ¬isMainGroup ∧ group.requiresTrigger ≠ some false ∧ ¬hasTrigger then
      ⟨false, prevCursor, prevCursor, true, [], false, false⟩
    else
      let newCursor := ((missed.getLast?).map (fun m => m.timestamp)).getD prevCursor
      let run := runFrames useStreaming chatJid ⟨false, false⟩ frames
      let st := run.1
      let effs := run.2
      if agentResult = "error" ∨ st.hadError then
        if st.outputSentToUser then
          ⟨true, newCursor, newCursor, true, effs, st.outputSentToUser, st.hadError⟩
        else
          ⟨true, newCursor, prevCursor, false, effs, st.outputSentToUser, st.hadError⟩
      else
        ⟨true, newCursor, newCursor, true, effs, st.outputSentToUser, st.hadError⟩

/-! ## Sandbox-side IPC tools (`container/shared/ipc-tools.ts`) -/

def IPC_DIR : String := "/workspace/ipc"

def MESSAGES_DIR : String := IPC_DIR ++ "/messages"

def TASKS_DIR : String := IPC_DIR ++ "/tasks"

def QUERIES_DIR : String := IPC_DIR ++ "/queries"

/-- The JSON payloads the sandbox-side tools write (field-for-field from
`ipc-tools.ts`). -/
inductive IpcPayload
  | message (chatJid text : String) (sender : Option String)
      (groupFolder timestamp : String)
  | scheduleTask (prompt schedule_type schedule_value context_mode targetJid
      createdBy timestamp : String)
  | pauseTask (taskId groupFolder : String) (isMain : Bool) (timestamp : String)
  | resumeTask (taskId groupFolder : String) (isMain : Bool) (timestamp : String)
  | cancelTask (taskId groupFolder : String) (isMain : Bool) (timestamp : String)
  | registerGroup (jid name folder trigger timestamp : String)
deriving DecidableEq, Repr

/-- The `targetJid` field of a payload, when it has one. -/
def IpcPayload.targetJidOf : IpcPayload → Option String
  | .scheduleTask _ _ _ _ t _ _ => some t
  | _ => none

structure IpcContext where
  chatJid : String
  groupFolder : String
  isMain : Bool
deriving DecidableEq, Repr

/-- JS `parseInt(s, 10)`: skip leading whitespace, optional sign, then
the maximal run of decimal digits; `none` models `NaN`. -/
def parseIntJS (s : String) : Option Int :=
  let l := s.data.dropWhile Char.isWhitespace
  let signAndRest : Int × List Char :=
    match l with
    | '+' :: t => (1, t)
    | '-' :: t => (-1, t)
    | _ => (1, l)
  let digits := signAndRest.2.takeWhile Char.isDigit
  if digits.isEmpty then none
  else some (signAndRest.1 *
    (digits.foldl (fun a c => a * 10 + (c.toNat - '0'.toNat)) 0 : Nat))

/-- `sendMessage` from `ipc-tools.ts`: the directory/payload pairs written
(each via `writeIpcFile`) and the string returned to the agent. -/
def ipcSendMessage (ctx : IpcContext) (text : String) (sender : Option String)
    (timestamp : String) : List (String × IpcPayload) × String :=
  ([(MESSAGES_DIR, .message ctx.chatJid text sender ctx.groupFolder timestamp)],
   "Message sent.")

/-- The `targetJid` computation of `scheduleTask` (`ipc-tools.ts`):
`ctx.isMain && targetGroupJid ? targetGroupJid : ctx.chatJid`;
the JS truthiness test on `targetGroupJid` is false for `undefined`
and for the empty string. -/
def scheduleTargetJid (ctx : IpcContext) (targetGroupJid : Option String) : String :=
  match targetGroupJid with
  | some t => if ctx.isMain ∧ t ≠ "" then t else ctx.chatJid
  | none => ctx.chatJid

/-- `scheduleTask` from `ipc-tools.ts`.  `dateValid` stands for the host
library test `!isNaN(new Date(v).getTime())`. -/
def scheduleTask (ctx : IpcContext) (prompt : String) (scheduleType : String)
    (scheduleValue : String) (contextMode : String)
    (targetGroupJid : Option String) (dateValid : String → Bool)
    (timestamp : String) : List (String × IpcPayload) × String :=
  let badInterval : Bool :=
    match parseIntJS scheduleValue with
    | some n => n ≤ 0
    | none => true
  if scheduleType = "interval" ∧ badInterval then
    ([], "Invalid interval: \"" ++ scheduleValue ++ "\". Must be positive milliseconds.")
  else if scheduleType = "once" ∧ ¬dateValid scheduleValue then
    ([], "Invalid timestamp: \"" ++ scheduleValue ++ "\". Use ISO 8601 format.")
  else
    ([(TASKS_DIR, .scheduleTask prompt scheduleType scheduleValue contextMode
        (scheduleTargetJid ctx targetGroupJid) ctx.groupFolder timestamp)],
     "Task scheduled: " ++ scheduleType ++ " - " ++ scheduleValue)

/-- `pauseTask` from `ipc-tools.ts`. -/
def pauseTask (ctx : IpcContext) (taskId timestamp : String) :
    List (String × IpcPayload) × String :=
  ([(TASKS_DIR, .pauseTask taskId ctx.groupFolder ctx.isMain timestamp)],
   "Task " ++ taskId ++ " pause requested.")

/-- `resumeTask` from `ipc-tools.ts`. -/
def resumeTask (ctx : IpcContext) (taskId timestamp : String) :
    List (String × IpcPayload) × String :=
  ([(TASKS_DIR, .resumeTask taskId ctx.groupFolder ctx.isMain timestamp)],
   "Task " ++ taskId ++ " resume requested.")

/-- `cancelTask` from `ipc-tools.ts`. -/
def cancelTask (ctx : IpcContext) (taskId timestamp : String) :
    List (String × IpcPayload) × String :=
  ([(TASKS_DIR, .cancelTask taskId ctx.groupFolder ctx.isMain timestamp)],
   "Task " ++ taskId ++ " cancellation requested.")

/-- `registerGroup` from `ipc-tools.ts`: refused outside the main group,
otherwise exactly one `register_group` task file is written. -/
def registerGroup (ctx : IpcContext) (jid name folder trigger timestamp : String) :
    List (String × IpcPayload) × String :=
  if ¬ctx.isMain then
    ([], "Only the main group can register new groups.")
  else
    ([(TASKS_DIR, .registerGroup jid name folder trigger timestamp)],
     "Group \"" ++ name ++ "\" registered. It will start receiving messages immediately.")

/-! ## Filesystem-level view of the IPC writes (`writeIpcFile`, `queryKernel`)

`writeIpcFile` does `writeFileSync(path + ".tmp", json)` then
`renameSync(path + ".tmp", path)`; `queryKernel` writes its query file the
same way.  To talk about readers observing partial files, the plain write
is modelled as a sequence of appends of arbitrary chunks of the content. -/

inductive FsEvent
  | append (path chunk : String)
  | rename (src dst : String)
deriving DecidableEq, Repr

/-- A filesystem is a partial map from path to content. -/
def Fs := String → Option String

def applyEvent (fs : Fs) : FsEvent → Fs
  | .append p c => fun q => if q = p then some ((fs p).getD "" ++ c) else fs q
  | .rename a b => fun q =>
      if q = b then fs a else if q = a then none else fs q

def applyTrace (fs : Fs) (t : List FsEvent) : Fs :=
  t.foldl applyEvent fs

/-- Write-to-temp-then-rename, the primitive shared by `writeIpcFile`
(`ipc-tools.ts`) and the query write in `queryKernel` (`demarch-client.ts`):
the content (split into `chunks` by the kernel) goes to `path ++ ".tmp"`,
then the temp file is renamed onto the final path. -/
def atomicWriteTrace (path : String) (chunks : List String) : List FsEvent :=
  FsEvent.append (path ++ ".tmp") ""
    :: (chunks.map (FsEvent.append (path ++ ".tmp")) ++ [FsEvent.rename (path ++ ".tmp") path])

/-- The event trace of `writeIpcFile(dir, data)` for the generated
`filename`, with the serialized JSON split into `chunks`. -/
def writeIpcFile (dir filename : String) (chunks : List String) : List FsEvent :=
  atomicWriteTrace (dir ++ "/" ++ filename) chunks

/-- The event trace of the query write in `queryKernel` for a given
`uuid` (`queries/{uuid}.json`). -/
def queryKernelWrite (uuid : String) (chunks : List String) : List FsEvent :=
  atomicWriteTrace (QUERIES_DIR ++ "/" ++ uuid ++ ".json") chunks

/-! ## The `/model` command (`index.ts`, `handleModel`) -/

/-- Substring test, JS `String.prototype.includes`. -/
def containsSubstr : List Char → List Char → Bool
  | l, sub =>
    sub.isPrefixOf l ||
      match l with
      | [] => false
      | _ :: t => containsSubstr t sub

/-- `getModelName` from `index.ts`: the model reported by the running
container wins, then the catalog display name, then the default. -/
def getModelName (reportedModel : Option String) (modelId : Option String) : String :=
  match reportedModel with
  | some m => m
  | none =>
    let fallback := ((findModel DEFAULT_MODEL).map (fun e => e.displayName)).getD DEFAULT_MODEL
    match modelId with
    | some id =>
      match findModel id with
      | some entry => entry.displayName
      | none => fallback
    | none => fallback

/-- The model-argument resolution of `handleModel` (`index.ts`): exact
catalog id match on the lowercased argument; then 1-based numeric index;
then substring match on id or lowercased display name; finally the
lowercased argument itself with a prefix-inferred runtime. -/
def resolveModel (args : String) : ModelEntry :=
  match findModel (jsToLower args) with
  | some m => m
  | none =>
    match (match parseIntJS args with
      | some n =>
        if 1 ≤ n ∧ n ≤ (MODEL_CATALOG.length : Int) then MODEL_CATALOG.get? (n - 1).toNat
        else none
      | none => none) with
    | some m => m
    | none =>
      match MODEL_CATALOG.find? (fun m =>
          containsSubstr m.id.data (jsToLower args).data
            || containsSubstr (jsToLower m.displayName).data (jsToLower args).data) with
      | some m => m
      | none => ⟨jsToLower args, runtimeForModel (jsToLower args), args⟩

/-- The dispatcher-applied side effects of a command (`index.ts`). -/
inductive CmdEffect
  | killGroup (jid : String)
  | clearSession (folder : String)
deriving DecidableEq, Repr

structure ModelCmdOutcome where
  text : String
  effects : List CmdEffect
  group : RegisteredGroup
deriving DecidableEq, Repr

/-- `handleModel(chatJid, args)` from `index.ts` for a registered group,
with `reportedModel` the `reportedModels[group.folder]` entry.  The
no-argument catalog listing is returned verbatim as text; on a switch the
running container is killed, the session cleared and the group's model
and runtime updated (summary pre-generation is fire-and-forget and
elided). -/
def handleModel (group : RegisteredGroup) (chatJid : String)
    (reportedModel : Option String) (args : String) : ModelCmdOutcome :=
  let currentModelId := group.model.getD DEFAULT_MODEL
  if args = "" then
    let currentDisplay := getModelName reportedModel (some currentModelId)
    ⟨"*Current model:* " ++ currentDisplay, [], group⟩
  else
    let newModel := resolveModel args
    if newModel.id = currentModelId then
      ⟨"Already using `" ++ newModel.displayName ++ "`.", [], group⟩
    else
      let prevDisplay := getModelName reportedModel (some currentModelId)
      ⟨"Switched from " ++ prevDisplay ++ " to *" ++ newModel.displayName
          ++ "*.\nConversation context will carry over.",
        [.killGroup chatJid, .clearSession group.folder],
        { group with model := some newModel.id, runtime := some newModel.runtime }⟩

/-! ### C1 and C3: cursor rollback policy and the absence of a failure reply -/

/-- Effects that deliver or persist a final reply: the accumulator
finalize, the direct channel send, and the Assistant Reply store. -/
def HostEffect.isReplyEffect : HostEffect → Bool
  | .accFinalize _ => true
  | .sendMessage _ _ => true
  | .storeBotMessage _ _ => true
  | _ => false

/-- A main-group registration used by concrete instantiations. -/
def exMainGroup : RegisteredGroup := ⟨"Main", "main", "@Andy", none, none, none⟩

/-- A plain inbound message used by concrete instantiations. -/
def exMsg : NewMessage := ⟨"m1", "tg:1", "u1", "User", "hello", "2026-01-01T00:00:00Z", false, false⟩

/-- An error frame used by concrete instantiations. -/
def exErrFrame : ContainerOutput := ⟨"error", none, none, none, some "boom", none⟩

/-! ### C2: trigger gating and the trigger-pattern characterization -/

/-- Case-insensitive literal consumption: consume `name` from the front
of `s`, tracking the last consumed character (for `\b`). -/
def consumeCI : List Char → Option Char → List Char → Option (Option Char × List Char)
  | [], prev, s => some (prev, s)
  | _ :: _, _, [] => none
  | p :: ps, _, c :: cs =>
    if c.toLower == p.toLower then consumeCI ps (some c) cs else none

/-- The last element of `l`, or the fallback position `dflt` when `l` is
empty (the character left of the current regex position). -/
def lastOr (l : List α) (dflt : Option α) : Option α :=
  match l.getLast? with
  | some d => some d
  | none => dflt

/-- A non-main group with a required trigger, used by the witness. -/
def exTeamGroup : RegisteredGroup := ⟨"Team", "team", "@Andy", some true, none, none⟩

/-- A triggering inbound message, used by the witness. -/
def exTrigMsg : NewMessage :=
  ⟨"m2", "tg:2", "u2", "User", " @ANDY recap ", "2026-01-02T00:00:00Z", false, false⟩

/-! # Theorems -/

theorem afterClose_length {l r : List Char} (h : afterClose l = some r) :
    r.length < l.length := by
  induction l with
  | nil => simp [afterClose] at h
  | cons c cs ih =>
    rw [afterClose] at h
    split at h
    · rename_i hpre
      have hpre' : closeTag <+: (c :: cs) := by
        simpa [List.isPrefixOf_iff_prefix] using hpre
      have hle : closeTag.length ≤ (c :: cs).length := hpre'.length_le
      have : r = (c :: cs).drop closeTag.length := by simpa using h.symm
      subst this
      simp only [List.length_drop]
      have : 0 < closeTag.length := by decide
      omega
    · exact Nat.lt_trans (ih h) (by simp)

theorem afterClose_length_le {l r : List Char} (h : afterClose ((l).drop openTag.length) = some r)
    (hl : 1 ≤ l.length) : r.length ≤ l.length - 1 := by
  have h1 := afterClose_length h
  simp only [List.length_drop] at h1
  omega

theorem stripInternalGo_fuel (fuel1 : Nat) :
    ∀ (fuel2 : Nat) (l : List Char), l.length ≤ fuel1 → l.length ≤ fuel2 →
      stripInternalGo fuel1 l = stripInternalGo fuel2 l := by
  induction fuel1 with
  | zero =>
    intro fuel2 l h1 _
    have : l = [] := List.length_eq_zero.mp (Nat.le_zero.mp h1)
    subst this
    cases fuel2 <;> rfl
  | succ f1 ih =>
    intro fuel2 l h1 h2
    cases l with
    | nil => cases fuel2 <;> rfl
    | cons c cs =>
      cases fuel2 with
      | zero => simp at h2
      | succ f2 =>
        show (if openTag.isPrefixOf (c :: cs) then _ else _)
          = (if openTag.isPrefixOf (c :: cs) then _ else _)
        by_cases hpre : openTag.isPrefixOf (c :: cs)
        · rw [if_pos hpre, if_pos hpre]
          cases hac : afterClose ((c :: cs).drop openTag.length) with
          | some rest =>
            have hr := afterClose_length_le hac (by simp)
            simp only [List.length_cons] at h1 h2 hr
            exact ih f2 rest (by omega) (by omega)
          | none =>
            simp only [List.length_cons] at h1 h2
            exact congrArg (c :: ·) (ih f2 cs (by omega) (by omega))
        · rw [if_neg hpre, if_neg hpre]
          simp only [List.length_cons] at h1 h2
          exact congrArg (c :: ·) (ih f2 cs (by omega) (by omega))

theorem stripInternalGo_eq_aux (fuel : Nat) (l : List Char) (h : l.length ≤ fuel) :
    stripInternalGo fuel l = stripInternalAux l :=
  stripInternalGo_fuel fuel l.length l h le_rfl

theorem stripInternalAux_cons_notOpen (c : Char) (cs : List Char)
    (h : openTag.isPrefixOf (c :: cs) = false) :
    stripInternalAux (c :: cs) = c :: stripInternalAux cs := by
  show stripInternalGo (cs.length + 1) (c :: cs) = _
  unfold stripInternalGo
  rw [if_neg (by simp [h])]
  rfl

theorem stripInternalAux_cons_openClose (c : Char) (cs rest : List Char)
    (hpre : openTag.isPrefixOf (c :: cs) = true)
    (hac : afterClose ((c :: cs).drop openTag.length) = some rest) :
    stripInternalAux (c :: cs) = stripInternalAux rest := by
  show stripInternalGo (cs.length + 1) (c :: cs) = _
  unfold stripInternalGo
  rw [if_pos hpre, hac]
  show stripInternalGo cs.length rest = _
  exact stripInternalGo_eq_aux cs.length rest
    (by have := afterClose_length_le hac (l := c :: cs) (by simp); simpa using this)

theorem stripInternalAux_cons_openNoClose (c : Char) (cs : List Char)
    (hpre : openTag.isPrefixOf (c :: cs) = true)
    (hac : afterClose ((c :: cs).drop openTag.length) = none) :
    stripInternalAux (c :: cs) = c :: stripInternalAux cs := by
  show stripInternalGo (cs.length + 1) (c :: cs) = _
  unfold stripInternalGo
  rw [if_pos hpre, hac]
  rfl

/-! # Claim theorems -/

/-- **C5.** A `register_group` request emitted from a context whose
`isMain` flag is false writes no task file into the IPC tasks directory
and returns the refusal message `Only the main group can register new
groups.`; from a main-group context it writes exactly one
`register_group` task file carrying the given jid, name, folder and
trigger. -/
theorem C5_register_group_authorization (ctx : IpcContext)
    (jid name folder trigger ts : String) :
    (ctx.isMain = false →
      (registerGroup ctx jid name folder trigger ts).1 = [] ∧
      (registerGroup ctx jid name folder trigger ts).2 =
        "Only the main group can register new groups.") ∧
    (ctx.isMain = true →
      (registerGroup ctx jid name folder trigger ts).1 =
        [(TASKS_DIR, IpcPayload.registerGroup jid name folder trigger ts)]) := by
  constructor <;> intro h <;> simp [registerGroup, h]

theorem C5_register_group_authorization_witness :
    ((registerGroup ⟨"tg:2", "team", false⟩ "tg:9" "New" "new" "@Andy" "T0").1 = [] ∧
      (registerGroup ⟨"tg:2", "team", false⟩ "tg:9" "New" "new" "@Andy" "T0").2 =
        "Only the main group can register new groups.") ∧
    (registerGroup ⟨"tg:1", "main", true⟩ "tg:9" "New" "new" "@Andy" "T0").1 =
      [(TASKS_DIR, IpcPayload.registerGroup "tg:9" "New" "new" "@Andy" "T0")] :=
  ⟨(C5_register_group_authorization ⟨"tg:2", "team", false⟩ "tg:9" "New" "new" "@Andy" "T0").1 rfl,
   (C5_register_group_authorization ⟨"tg:1", "main", true⟩ "tg:9" "New" "new" "@Andy" "T0").2 rfl⟩

theorem scheduleTask_writes (ctx : IpcContext) (prompt sType sValue cMode : String)
    (tgt : Option String) (dateValid : String → Bool) (ts : String) :
    ∀ p ∈ (scheduleTask ctx prompt sType sValue cMode tgt dateValid ts).1,
      p = (TASKS_DIR, IpcPayload.scheduleTask prompt sType sValue cMode
        (scheduleTargetJid ctx tgt) ctx.groupFolder ts) := by
  intro p hp
  unfold scheduleTask at hp
  split at hp <;> split_ifs at hp <;> try simp_all
  all_goals (split at hp <;> simp_all)

theorem scheduleTargetJid_notMain (ctx : IpcContext) (tgt : Option String)
    (h : ctx.isMain = false) : scheduleTargetJid ctx tgt = ctx.chatJid := by
  cases tgt with
  | none => rfl
  | some t => simp [scheduleTargetJid, h]

/-- **C6.** Every task file written by `scheduleTask` from a non-main
context has `targetJid` equal to the calling context's own `chatJid`,
regardless of the `targetGroupJid` argument; a task whose target differs
from the owner's chat JID can only come from a main-group context. -/
theorem C6_schedule_task_target (ctx : IpcContext) (prompt sType sValue cMode : String)
    (tgt : Option String) (dateValid : String → Bool) (ts : String) :
    ∀ p ∈ (scheduleTask ctx prompt sType sValue cMode tgt dateValid ts).1,
      (ctx.isMain = false → p.2.targetJidOf = some ctx.chatJid) ∧
      (∀ t, p.2.targetJidOf = some t → t ≠ ctx.chatJid → ctx.isMain = true) := by
  intro p hp
  have hps := scheduleTask_writes ctx prompt sType sValue cMode tgt dateValid ts p hp
  subst hps
  refine ⟨fun hmain => ?_, fun t ht hne => ?_⟩
  · simp [IpcPayload.targetJidOf, scheduleTargetJid_notMain ctx tgt hmain]
  · simp only [IpcPayload.targetJidOf, Option.some.injEq] at ht
    by_cases hm : ctx.isMain
    · exact hm
    · exfalso
      rw [scheduleTargetJid_notMain ctx tgt (by simpa using hm)] at ht
      exact hne ht.symm

theorem C6_schedule_task_target_witness :
    (IpcPayload.scheduleTask "p" "cron" "* * * * *" "group"
        (scheduleTargetJid ⟨"tg:2", "team", false⟩ (some "tg:9")) "team" "T0").targetJidOf
      = some "tg:2" := by
  have h := C6_schedule_task_target ⟨"tg:2", "team", false⟩ "p" "cron" "* * * * *" "group"
    (some "tg:9") (fun _ => true) "T0"
    (TASKS_DIR, IpcPayload.scheduleTask "p" "cron" "* * * * *" "group"
      (scheduleTargetJid ⟨"tg:2", "team", false⟩ (some "tg:9")) "team" "T0")
    (by decide)
  exact h.1 rfl

/-! ### C8: atomic IPC writes -/

theorem applyTrace_appends_ne (p : String) (chunks : List String) (fs : Fs)
    (q : String) (hq : q ≠ p) :
    applyTrace fs (chunks.map (FsEvent.append p)) q = fs q := by
  induction chunks generalizing fs with
  | nil => rfl
  | cons c cs ih =>
    show applyTrace (applyEvent fs (FsEvent.append p c)) (cs.map (FsEvent.append p)) q = fs q
    rw [ih]
    simp [applyEvent, hq]

theorem foldl_append_eq (l : List String) (a : String) :
    l.foldl (fun r s => r ++ s) a = a ++ l.foldl (fun r s => r ++ s) "" := by
  induction l generalizing a with
  | nil => simp [String.append_empty]
  | cons d ds ih =>
    simp only [List.foldl_cons]
    have h0 : ("" : String) ++ d = d := rfl
    rw [ih (a ++ d), ih (("" : String) ++ d), String.append_assoc, h0]

theorem string_join_cons (c : String) (cs : List String) :
    String.join (c :: cs) = c ++ String.join cs := by
  show List.foldl (fun r s => r ++ s) c cs = _
  exact foldl_append_eq cs c

theorem applyTrace_appends_acc (p : String) (chunks : List String) (fs : Fs)
    (s : String) (hs : fs p = some s) :
    applyTrace fs (chunks.map (FsEvent.append p)) p = some (s ++ String.join chunks) := by
  induction chunks generalizing fs s with
  | nil => simpa [applyTrace, String.join] using hs
  | cons c cs ih =>
    show applyTrace (applyEvent fs (FsEvent.append p c)) (cs.map (FsEvent.append p)) p = _
    rw [ih (applyEvent fs (FsEvent.append p c)) (s ++ c) (by simp [applyEvent, hs])]
    rw [string_join_cons, String.append_assoc]

theorem tmp_ne_self (p : String) : p ++ ".tmp" ≠ p := by
  intro h
  have hlen := congrArg String.length h
  rw [String.length_append] at hlen
  have h4 : (".tmp" : String).length = 4 := rfl
  omega

theorem atomicWriteTrace_spec (path : String) (chunks : List String) (fs0 : Fs)
    (hfresh : fs0 (path ++ ".tmp") = none) :
    (∀ n < (atomicWriteTrace path chunks).length,
        applyTrace fs0 ((atomicWriteTrace path chunks).take n) path = fs0 path) ∧
    applyTrace fs0 (atomicWriteTrace path chunks) path = some (String.join chunks) ∧
    (∀ p c, FsEvent.append p c ∈ atomicWriteTrace path chunks → p = path ++ ".tmp") := by
  have hne : path ≠ path ++ ".tmp" := (tmp_ne_self path).symm
  have hcreated : applyEvent fs0 (FsEvent.append (path ++ ".tmp") "") (path ++ ".tmp")
      = some "" := by simp [applyEvent, hfresh]
  refine ⟨?_, ?_, ?_⟩
  · intro n hn
    unfold atomicWriteTrace at hn ⊢
    cases n with
    | zero => rfl
    | succ k =>
      simp only [List.length_cons, List.length_append, List.length_map,
        List.length_singleton, List.length_nil] at hn
      show applyTrace (applyEvent fs0 (FsEvent.append (path ++ ".tmp") ""))
        ((chunks.map (FsEvent.append (path ++ ".tmp")) ++
          [FsEvent.rename (path ++ ".tmp") path]).take k) path = fs0 path
      have hk : k ≤ (chunks.map (FsEvent.append (path ++ ".tmp"))).length := by
        simp only [List.length_map]
        omega
      rw [List.take_append_of_le_length hk, ← List.map_take,
        applyTrace_appends_ne (path ++ ".tmp") (chunks.take k) _ path hne]
      simp [applyEvent, hne]
  · have step1 : applyTrace fs0 (atomicWriteTrace path chunks) path
        = applyEvent (applyTrace (applyEvent fs0 (FsEvent.append (path ++ ".tmp") ""))
            (chunks.map (FsEvent.append (path ++ ".tmp"))))
          (FsEvent.rename (path ++ ".tmp") path) path := by
      unfold atomicWriteTrace applyTrace
      rw [List.foldl_cons, List.foldl_append]
      rfl
    have step3 : applyEvent (applyTrace (applyEvent fs0 (FsEvent.append (path ++ ".tmp") ""))
          (chunks.map (FsEvent.append (path ++ ".tmp"))))
        (FsEvent.rename (path ++ ".tmp") path) path
        = applyTrace (applyEvent fs0 (FsEvent.append (path ++ ".tmp") ""))
          (chunks.map (FsEvent.append (path ++ ".tmp"))) (path ++ ".tmp") := by
      simp [applyEvent]
    rw [step1, step3,
      applyTrace_appends_acc (path ++ ".tmp") chunks _ "" hcreated]
    rfl
  · intro p c hmem
    unfold atomicWriteTrace at hmem
    rcases List.mem_cons.mp hmem with h | h
    · injection h
    rcases List.mem_append.mp h with h | h
    · obtain ⟨x, _, hx⟩ := List.mem_map.mp h
      injection hx with h1 _
      exact h1.symm
    · simp at h

/-- **C8.** Every file the sandbox-side IPC helpers create (`writeIpcFile`
for `messages/` and `tasks/`, the query write of `queryKernel` for
`queries/`) is first written completely to a temporary path ending in
`.tmp` and only then renamed onto its final name, so a reader polling the
directory sees the final name appear only with the complete content:
every proper prefix of the event trace leaves the final path unchanged,
and the full trace maps it to the whole serialized content. -/
theorem C8_ipc_writes_atomic (dir filename uuid : String) (chunks : List String)
    (fs0 : Fs) (h1 : fs0 ((dir ++ "/" ++ filename) ++ ".tmp") = none)
    (h2 : fs0 ((QUERIES_DIR ++ "/" ++ uuid ++ ".json") ++ ".tmp") = none) :
    ((∀ n < (writeIpcFile dir filename chunks).length,
        applyTrace fs0 ((writeIpcFile dir filename chunks).take n) (dir ++ "/" ++ filename) =
          fs0 (dir ++ "/" ++ filename)) ∧
      applyTrace fs0 (writeIpcFile dir filename chunks) (dir ++ "/" ++ filename) =
        some (String.join chunks) ∧
      (∀ p c, FsEvent.append p c ∈ writeIpcFile dir filename chunks →
        p = (dir ++ "/" ++ filename) ++ ".tmp")) ∧
    ((∀ n < (queryKernelWrite uuid chunks).length,
        applyTrace fs0 ((queryKernelWrite uuid chunks).take n)
            (QUERIES_DIR ++ "/" ++ uuid ++ ".json") =
          fs0 (QUERIES_DIR ++ "/" ++ uuid ++ ".json")) ∧
      applyTrace fs0 (queryKernelWrite uuid chunks) (QUERIES_DIR ++ "/" ++ uuid ++ ".json") =
        some (String.join chunks) ∧
      (∀ p c, FsEvent.append p c ∈ queryKernelWrite uuid chunks →
        p = (QUERIES_DIR ++ "/" ++ uuid ++ ".json") ++ ".tmp")) :=
  ⟨atomicWriteTrace_spec (dir ++ "/" ++ filename) chunks fs0 h1,
   atomicWriteTrace_spec (QUERIES_DIR ++ "/" ++ uuid ++ ".json") chunks fs0 h2⟩

theorem C8_ipc_writes_atomic_witness :
    applyTrace (fun _ => none) (writeIpcFile "/workspace/ipc/tasks" "f.json" ["ab", "c"])
        ("/workspace/ipc/tasks" ++ "/" ++ "f.json") = some "abc" ∧
    applyTrace (fun _ => none) (queryKernelWrite "u1" ["xy"])
        (QUERIES_DIR ++ "/" ++ "u1" ++ ".json") = some "xy" := by
  have h := C8_ipc_writes_atomic "/workspace/ipc/tasks" "f.json" "u1" ["ab", "c"]
    (fun _ => none) rfl rfl
  have h2 := C8_ipc_writes_atomic "/workspace/ipc/tasks" "f.json" "u1" ["xy"]
    (fun _ => none) rfl rfl
  refine ⟨?_, ?_⟩
  · have := h.1.2.1
    simpa using this
  · have := h2.2.2.1
    simpa using this

/-! ### C10: internal-only results produce no outbound write -/

/-- **C10.** If a final sandbox result consists only of
`<internal>...</internal>` blocks and whitespace (its stripped text is
empty), no outbound channel write occurs: `StreamAccumulator.finalize`
returns before any send or edit, and the frame callback of
`processGroupMessages` emits no channel or store effect (at most the
queue idle notification), does not persist an Assistant Reply, and leaves
the output-delivered flag unchanged. -/
theorem C10_internal_only_no_output (st : StreamAccumulator.State) (raw : String)
    (editOk useStreaming : Bool) (chatJid : String) (fst : FrameState)
    (o : ContainerOutput) (hraw : stripInternalTags raw = "")
    (hres : o.result = some raw) (hev : o.event = none) :
    StreamAccumulator.finalize st raw editOk = [] ∧
    (handleAgentOutput useStreaming chatJid fst o).1.outputSentToUser =
      fst.outputSentToUser ∧
    ∀ e ∈ (handleAgentOutput useStreaming chatJid fst o).2,
      e = HostEffect.notifyIdle chatJid := by
  refine ⟨?_, ?_, ?_⟩
  · unfold StreamAccumulator.finalize
    rw [hraw]
    rfl
  · unfold handleAgentOutput
    rw [hev, hres]
    simp [hraw]
    split <;> rfl
  · intro e he
    unfold handleAgentOutput at he
    rw [hev, hres] at he
    simp [hraw] at he
    exact he.2

theorem C10_internal_only_no_output_witness :
    StreamAccumulator.finalize ⟨some "m1", ["line"]⟩ "<internal>plan</internal>" true = [] ∧
    (handleAgentOutput true "tg:1" ⟨false, false⟩
      ⟨"success", some "<internal>plan</internal>", none, none, none, none⟩).1.outputSentToUser
      = false ∧
    ∀ e ∈ (handleAgentOutput true "tg:1" ⟨false, false⟩
        ⟨"success", some "<internal>plan</internal>", none, none, none, none⟩).2,
      e = HostEffect.notifyIdle "tg:1" :=
  C10_internal_only_no_output ⟨some "m1", ["line"]⟩ "<internal>plan</internal>" true true
    "tg:1" ⟨false, false⟩
    ⟨"success", some "<internal>plan</internal>", none, none, none, none⟩
    (by decide) rfl rfl

/-! ### C4: finalize strips internal blocks, edits in place, falls back to send -/

theorem openTag_isPrefixOf_false (c : Char) (cs : List Char) (hc : c ≠ '<') :
    openTag.isPrefixOf (c :: cs) = false := by
  show (('<' :: "internal>".data).isPrefixOf (c :: cs)) = false
  simp only [List.isPrefixOf, Bool.and_eq_false_iff]
  left
  simpa using fun h => hc h.symm

theorem closeTag_isPrefixOf_false (m : Char) (l : List Char) (hm : m ≠ '<') :
    closeTag.isPrefixOf (m :: l) = false := by
  show (('<' :: "/internal>".data).isPrefixOf (m :: l)) = false
  simp only [List.isPrefixOf, Bool.and_eq_false_iff]
  left
  simpa using fun h => hm h.symm

theorem afterClose_through (mid rest : List Char) (hmid : mid.contains '<' = false) :
    afterClose (mid ++ (closeTag ++ rest)) = some rest := by
  induction mid with
  | nil =>
    rw [List.nil_append,
      show closeTag ++ rest = '<' :: ("/internal>".data ++ rest) from rfl, afterClose]
    rw [if_pos (by
      show closeTag.isPrefixOf (closeTag ++ rest) = true
      rw [List.isPrefixOf_iff_prefix]
      exact List.prefix_append closeTag rest)]
    show some ((closeTag ++ rest).drop closeTag.length) = some rest
    rw [List.drop_left]
  | cons m ms ih =>
    have hm : m ≠ '<' := by
      intro hEq
      subst hEq
      simp [List.contains_cons] at hmid
    have hms : ms.contains '<' = false := by
      simp [List.contains_cons] at hmid
      simpa using hmid.2
    rw [List.cons_append, afterClose, if_neg (by simp [closeTag_isPrefixOf_false m _ hm])]
    exact ih hms

theorem stripInternalAux_block (mid rest : List Char) (hmid : mid.contains '<' = false) :
    stripInternalAux (openTag ++ (mid ++ (closeTag ++ rest))) = stripInternalAux rest := by
  rw [show openTag ++ (mid ++ (closeTag ++ rest))
      = '<' :: ("internal>".data ++ (mid ++ (closeTag ++ rest))) from rfl]
  refine stripInternalAux_cons_openClose _ _ rest ?_ ?_
  · show openTag.isPrefixOf (openTag ++ (mid ++ (closeTag ++ rest))) = true
    rw [List.isPrefixOf_iff_prefix]
    exact List.prefix_append _ _
  · show afterClose ((openTag ++ (mid ++ (closeTag ++ rest))).drop openTag.length) = some rest
    rw [List.drop_left]
    exact afterClose_through mid rest hmid

/-- **C4.** `StreamAccumulator.finalize` strips every
`<internal>...</internal>` block from the raw result (first two
conjuncts: a whole block is deleted from the scan, any other character is
kept and the scan moves on); and, when the clean text is nonempty, it
edits the already-created streaming message with tool-log-plus-clean-text
if that fits the 4096-character limit and the edit succeeds, and
otherwise (no message yet, over the limit, or a failed edit) falls back
to a plain send of the clean text alone. -/
theorem C4_finalize_behaviour (st : StreamAccumulator.State) (raw : String)
    (editOk : Bool) (mid rest : List Char) (hmid : mid.contains '<' = false)
    (c : Char) (hc : c ≠ '<') (cs : List Char)
    (hclean : stripInternalTags raw ≠ "") :
    (stripInternalAux (openTag ++ (mid ++ (closeTag ++ rest))) = stripInternalAux rest) ∧
    (stripInternalAux (c :: cs) = c :: stripInternalAux cs) ∧
    (st.messageId = none →
      StreamAccumulator.finalize st raw editOk =
        [.send (stripInternalTags raw)]) ∧
    (∀ m, st.messageId = some m →
      (StreamAccumulator.toolLog st ++ stripInternalTags raw).length ≤ MAX_MESSAGE_LENGTH →
      StreamAccumulator.finalize st raw editOk =
        (if editOk then
          [.edit m (StreamAccumulator.toolLog st ++ stripInternalTags raw)]
        else
          [.edit m (StreamAccumulator.toolLog st ++ stripInternalTags raw),
           .send (stripInternalTags raw)])) ∧
    (∀ m, st.messageId = some m →
      MAX_MESSAGE_LENGTH < (StreamAccumulator.toolLog st ++ stripInternalTags raw).length →
      StreamAccumulator.finalize st raw editOk =
        [.send (stripInternalTags raw)]) := by
  refine ⟨stripInternalAux_block mid rest hmid, ?_, ?_, ?_, ?_⟩
  · exact stripInternalAux_cons_notOpen c cs (openTag_isPrefixOf_false c cs hc)
  · intro hnone
    simp [StreamAccumulator.finalize, hclean, hnone]
  · intro m hm hle
    rw [String.length_append] at hle
    cases editOk <;> simp [StreamAccumulator.finalize, hclean, hm, hle]
  · intro m hm hgt
    rw [String.length_append] at hgt
    simp [StreamAccumulator.finalize, hclean, hm, Nat.not_le.mpr hgt]

theorem C4_finalize_behaviour_witness :
    (stripInternalAux (openTag ++ ("abc".data ++ (closeTag ++ "xy".data)))
      = stripInternalAux "xy".data) ∧
    (stripInternalAux ('h' :: "i".data) = 'h' :: stripInternalAux "i".data) ∧
    StreamAccumulator.finalize ⟨some "m1", []⟩ "result <internal>x</internal>text" true =
      [.edit "m1" (StreamAccumulator.toolLog ⟨some "m1", []⟩
        ++ stripInternalTags "result <internal>x</internal>text")] := by
  have h := C4_finalize_behaviour ⟨some "m1", []⟩ "result <internal>x</internal>text" true
    "abc".data "xy".data (by decide) 'h' (by decide) "i".data (by decide)
  refine ⟨h.1, h.2.1, ?_⟩
  have h4 := h.2.2.2.1 "m1" rfl (by decide)
  simpa using h4

theorem handleAgentOutput_sent_iff (useStreaming : Bool) (chatJid : String)
    (st : FrameState) (o : ContainerOutput) :
    (handleAgentOutput useStreaming chatJid st o).1.outputSentToUser =
      (st.outputSentToUser
        || (handleAgentOutput useStreaming chatJid st o).2.any HostEffect.isReplyEffect) := by
  unfold handleAgentOutput
  by_cases hev : o.event.isSome && useStreaming
  · rw [if_pos hev]
    cases o.event with
    | none => simp
    | some ev =>
      simp only
      split
      · simp [HostEffect.isReplyEffect]
      · split <;> simp [HostEffect.isReplyEffect]
  · rw [if_neg hev]
    cases hres : o.result with
    | none =>
      simp only
      split <;> split <;> simp [HostEffect.isReplyEffect]
    | some raw =>
      simp only
      by_cases htext : stripInternalTags raw = ""
      · simp only [htext, if_pos rfl]
        split <;> split <;> simp [HostEffect.isReplyEffect]
      · rw [if_neg htext]
        split <;> split <;> cases useStreaming <;> simp [HostEffect.isReplyEffect]

theorem runFrames_sent_iff (useStreaming : Bool) (chatJid : String)
    (frames : List ContainerOutput) :
    ∀ st : FrameState,
      (runFrames useStreaming chatJid st frames).1.outputSentToUser =
        (st.outputSentToUser
          || (runFrames useStreaming chatJid st frames).2.any HostEffect.isReplyEffect) := by
  induction frames with
  | nil => intro st; simp [runFrames]
  | cons o os ih =>
    intro st
    show (runFrames useStreaming chatJid
        (handleAgentOutput useStreaming chatJid st o).1 os).1.outputSentToUser = _
    rw [ih]
    rw [handleAgentOutput_sent_iff]
    show _ = (st.outputSentToUser
      || ((handleAgentOutput useStreaming chatJid st o).2
          ++ (runFrames useStreaming chatJid
              (handleAgentOutput useStreaming chatJid st o).1 os).2).any HostEffect.isReplyEffect)
    rw [List.any_append]
    cases st.outputSentToUser <;> cases (handleAgentOutput useStreaming chatJid st o).2.any
      HostEffect.isReplyEffect <;> simp

/-- **C1.** For every dispatched batch, `processGroupMessages` advances
`last_agent_ts[jid]` optimistically to the timestamp of the last pending
message before the run; on an error with no reply delivered it rolls the
cursor back to the pre-run value and returns failure (so the batch
re-runs), on an error after a reply was delivered it keeps the advanced
cursor and returns success, and on success it keeps the advance. -/
theorem C1_cursor_rollback_policy (assistantName : String) (group : RegisteredGroup)
    (chatJid prevCursor : String) (missed : List NewMessage) (useStreaming : Bool)
    (frames : List ContainerOutput) (agentResult : String) (hne : missed ≠ [])
    (hgate : group.folder = MAIN_GROUP_FOLDER ∨ group.requiresTrigger = some false ∨
      ∃ m ∈ missed, triggerTest assistantName (jsTrimS m.content) = true) :
    (processGroupMessages assistantName group chatJid prevCursor missed useStreaming
        frames agentResult).spawned = true ∧
    (processGroupMessages assistantName group chatJid prevCursor missed useStreaming
        frames agentResult).cursorDuringRun = (missed.getLast hne).timestamp ∧
    ((agentResult = "error" ∨
        (runFrames useStreaming chatJid ⟨false, false⟩ frames).1.hadError = true) →
      ((runFrames useStreaming chatJid ⟨false, false⟩ frames).1.outputSentToUser = false →
        (processGroupMessages assistantName group chatJid prevCursor missed useStreaming
            frames agentResult).finalCursor = prevCursor ∧
        (processGroupMessages assistantName group chatJid prevCursor missed useStreaming
            frames agentResult).success = false) ∧
      ((runFrames useStreaming chatJid ⟨false, false⟩ frames).1.outputSentToUser = true →
        (processGroupMessages assistantName group chatJid prevCursor missed useStreaming
            frames agentResult).finalCursor = (missed.getLast hne).timestamp ∧
        (processGroupMessages assistantName group chatJid prevCursor missed useStreaming
            frames agentResult).success = true)) ∧
    (¬(agentResult = "error" ∨
        (runFrames useStreaming chatJid ⟨false, false⟩ frames).1.hadError = true) →
      (processGroupMessages assistantName group chatJid prevCursor missed useStreaming
          frames agentResult).finalCursor = (missed.getLast hne).timestamp ∧
      (processGroupMessages assistantName group chatJid prevCursor missed useStreaming
          frames agentResult).success = true) := by
  have hnotempty : missed.isEmpty = false := by
    cases missed with
    | nil => exact absurd rfl hne
    | cons a l => rfl
  have hlast : ((missed.getLast?).map (fun m => m.timestamp)).getD prevCursor
      = (missed.getLast hne).timestamp := by
    rw [List.getLast?_eq_getLast missed hne]
    rfl
  have hgate' : ¬(¬group.folder = MAIN_GROUP_FOLDER ∧ group.requiresTrigger ≠ some false ∧
      ¬(missed.any (fun m => triggerTest assistantName (jsTrimS m.content)) = true)) := by
    rcases hgate with h | h | h
    · intro hcon; exact hcon.1 h
    · intro hcon; exact hcon.2.1 h
    · intro hcon
      exact hcon.2.2 (List.any_eq_true.mpr (by
        obtain ⟨m, hm, ht⟩ := h
        exact ⟨m, hm, ht⟩))
  unfold processGroupMessages
  rw [if_neg (by simp [hnotempty]), if_neg hgate']
  simp only [hlast]
  constructor
  · split <;> first | rfl | (split <;> rfl)
  constructor
  · split <;> first | rfl | (split <;> rfl)
  constructor
  · intro herr
    rw [if_pos (by
      rcases herr with h | h
      · exact Or.inl h
      · exact Or.inr (by simpa using h))]
    constructor
    · intro hsent
      rw [if_neg (by simp [hsent])]
      exact ⟨rfl, rfl⟩
    · intro hsent
      rw [if_pos (by simp [hsent])]
      exact ⟨rfl, rfl⟩
  · intro herr
    rw [if_neg (by
      intro hcon
      rcases hcon with h | h
      · exact herr (Or.inl h)
      · exact herr (Or.inr (by simpa using h)))]
    exact ⟨rfl, rfl⟩

theorem C1_cursor_rollback_policy_witness :
    (processGroupMessages "Andy" exMainGroup "tg:1" "" [exMsg] true [exErrFrame]
        "error").cursorDuringRun = "2026-01-01T00:00:00Z" ∧
    (processGroupMessages "Andy" exMainGroup "tg:1" "" [exMsg] true [exErrFrame]
        "error").finalCursor = "" ∧
    (processGroupMessages "Andy" exMainGroup "tg:1" "" [exMsg] true [exErrFrame]
        "error").success = false := by
  have h := C1_cursor_rollback_policy "Andy" exMainGroup "tg:1" "" [exMsg] true [exErrFrame]
    "error" (by decide) (Or.inl (by decide))
  refine ⟨h.2.1, ?_, ?_⟩
  · exact ((h.2.2.1 (Or.inl rfl)).1 (by decide)).1
  · exact ((h.2.2.1 (Or.inl rfl)).1 (by decide)).2

/-- **C3 (counterexample).** A sandbox invocation that fails having
accumulated no content sends nothing at all: at this concrete failing
input the call returns failure and its effect list is empty, so no
"request failed" reply reaches the channel. -/
theorem C3_counterexample_no_failure_reply :
    (processGroupMessages "Andy" exMainGroup "tg:1" "" [exMsg] true [] "error").success
      = false ∧
    (processGroupMessages "Andy" exMainGroup "tg:1" "" [exMsg] true [] "error").effects
      = [] := by
  decide

/-- **C3 (amended).** When a sandbox invocation fails having accumulated
no content, no reply of any kind is sent to the user: the call emits no
reply effect, rolls the cursor back and reports failure so the batch
re-runs; an agent-side error after content was delivered leaves the
already-delivered reply as the final message to the user (a reply effect
is present) and reports success. -/
theorem C3_failure_reply_policy (assistantName : String) (group : RegisteredGroup)
    (chatJid prevCursor : String) (missed : List NewMessage) (useStreaming : Bool)
    (frames : List ContainerOutput) (agentResult : String) (hne : missed ≠ [])
    (hgate : group.folder = MAIN_GROUP_FOLDER ∨ group.requiresTrigger = some false ∨
      ∃ m ∈ missed, triggerTest assistantName (jsTrimS m.content) = true)
    (herr : agentResult = "error" ∨
      (runFrames useStreaming chatJid ⟨false, false⟩ frames).1.hadError = true) :
    ((runFrames useStreaming chatJid ⟨false, false⟩ frames).1.outputSentToUser = false →
      (processGroupMessages assistantName group chatJid prevCursor missed useStreaming
          frames agentResult).effects.any HostEffect.isReplyEffect = false ∧
      (processGroupMessages assistantName group chatJid prevCursor missed useStreaming
          frames agentResult).finalCursor = prevCursor ∧
      (processGroupMessages assistantName group chatJid prevCursor missed useStreaming
          frames agentResult).success = false) ∧
    ((runFrames useStreaming chatJid ⟨false, false⟩ frames).1.outputSentToUser = true →
      (processGroupMessages assistantName group chatJid prevCursor missed useStreaming
          frames agentResult).effects.any HostEffect.isReplyEffect = true ∧
      (processGroupMessages assistantName group chatJid prevCursor missed useStreaming
          frames agentResult).success = true) := by
  have hnotempty : missed.isEmpty = false := by
    cases missed with
    | nil => exact absurd rfl hne
    | cons a l => rfl
  have hgate' : ¬(¬group.folder = MAIN_GROUP_FOLDER ∧ group.requiresTrigger ≠ some false ∧
      ¬(missed.any (fun m => triggerTest assistantName (jsTrimS m.content)) = true)) := by
    rcases hgate with h | h | h
    · intro hcon; exact hcon.1 h
    · intro hcon; exact hcon.2.1 h
    · intro hcon
      exact hcon.2.2 (List.any_eq_true.mpr (by
        obtain ⟨m, hm, ht⟩ := h
        exact ⟨m, hm, ht⟩))
  have hsentEq := runFrames_sent_iff useStreaming chatJid frames ⟨false, false⟩
  unfold processGroupMessages
  rw [if_neg (by simp [hnotempty]), if_neg hgate']
  constructor
  · intro hsent
    have hany : (runFrames useStreaming chatJid ⟨false, false⟩ frames).2.any
        HostEffect.isReplyEffect = false := by
      rw [hsent] at hsentEq
      simpa using hsentEq.symm
    rw [if_pos (by
      rcases herr with h | h
      · exact Or.inl h
      · exact Or.inr (by simpa using h))]
    rw [if_neg (by simp [hsent])]
    exact ⟨hany, rfl, rfl⟩
  · intro hsent
    have hany : (runFrames useStreaming chatJid ⟨false, false⟩ frames).2.any
        HostEffect.isReplyEffect = true := by
      rw [hsent] at hsentEq
      simpa using hsentEq.symm
    rw [if_pos (by
      rcases herr with h | h
      · exact Or.inl h
      · exact Or.inr (by simpa using h))]
    rw [if_pos (by simp [hsent])]
    exact ⟨hany, rfl⟩

theorem C3_failure_reply_policy_witness :
    (processGroupMessages "Andy" exMainGroup "tg:1" "" [exMsg] true [exErrFrame]
        "error").effects.any HostEffect.isReplyEffect = false ∧
    (processGroupMessages "Andy" exMainGroup "tg:1" "" [exMsg] true [exErrFrame]
        "error").finalCursor = "" ∧
    (processGroupMessages "Andy" exMainGroup "tg:1" "" [exMsg] true [exErrFrame]
        "error").success = false :=
  (C3_failure_reply_policy "Andy" exMainGroup "tg:1" "" [exMsg] true [exErrFrame] "error"
    (by decide) (Or.inl (by decide)) (Or.inl rfl)).1 (by decide)

/-! ### C7: `/model` argument resolution and switch effects -/

/-- **C7 (counterexample).** The final fallback of the `/model`
resolution does not accept the raw argument verbatim as the model id: it
lowercases it.  At the concrete argument `MyCustomLLM` (no exact, numeric
or substring catalog match) the resolved and stored model id is
`mycustomllm`, not the verbatim argument. -/
theorem C7_counterexample_fallback_lowercases :
    (resolveModel "MyCustomLLM").id = "mycustomllm" ∧
    ("mycustomllm" : String) ≠ "MyCustomLLM" ∧
    (handleModel exMainGroup "tg:1" none "MyCustomLLM").group.model
      = some "mycustomllm" := by
  decide

/-- **C7 (amended).** The `/model` argument is resolved by trying, in
order: exact catalog id match on the lowercased argument; numeric
1-based index into the catalog; substring match on catalog id or
lowercased display name; and finally acceptance of the lowercased
argument as the model id (the display name keeps the raw text) with the
runtime inferred from the id's prefix.  If the resolved id differs from
the current model id, the running container is killed, the group's
session is cleared, and the group's model and runtime are updated;
otherwise nothing changes. -/
theorem C7_model_resolution_order (args : String) (group : RegisteredGroup)
    (chatJid : String) (reported : Option String) (hargs : args ≠ "") :
    (∀ m, findModel (jsToLower args) = some m → resolveModel args = m) ∧
    (findModel (jsToLower args) = none →
      ∀ n m, parseIntJS args = some n → 1 ≤ n → n ≤ (MODEL_CATALOG.length : Int) →
        MODEL_CATALOG.get? (n - 1).toNat = some m → resolveModel args = m) ∧
    (findModel (jsToLower args) = none →
      (∀ n, parseIntJS args = some n → ¬(1 ≤ n ∧ n ≤ (MODEL_CATALOG.length : Int))) →
      ∀ m, MODEL_CATALOG.find? (fun e =>
          containsSubstr e.id.data (jsToLower args).data
            || containsSubstr (jsToLower e.displayName).data (jsToLower args).data) = some m →
        resolveModel args = m) ∧
    (findModel (jsToLower args) = none →
      (∀ n, parseIntJS args = some n → ¬(1 ≤ n ∧ n ≤ (MODEL_CATALOG.length : Int))) →
      MODEL_CATALOG.find? (fun e =>
          containsSubstr e.id.data (jsToLower args).data
            || containsSubstr (jsToLower e.displayName).data (jsToLower args).data) = none →
      resolveModel args = ⟨jsToLower args, runtimeForModel (jsToLower args), args⟩) ∧
    ((resolveModel args).id ≠ group.model.getD DEFAULT_MODEL →
      (handleModel group chatJid reported args).effects =
        [.killGroup chatJid, .clearSession group.folder] ∧
      (handleModel group chatJid reported args).group.model = some (resolveModel args).id ∧
      (handleModel group chatJid reported args).group.runtime
        = some (resolveModel args).runtime) ∧
    ((resolveModel args).id = group.model.getD DEFAULT_MODEL →
      (handleModel group chatJid reported args).effects = [] ∧
      (handleModel group chatJid reported args).group = group) := by
  refine ⟨?_, ?_, ?_, ?_, ?_, ?_⟩
  · intro m hm
    unfold resolveModel
    rw [hm]
  · intro hnone n m hn h1 h2 hget
    unfold resolveModel
    simp only [hnone, hn, hget,
      if_pos (show 1 ≤ n ∧ n ≤ (MODEL_CATALOG.length : Int) from ⟨h1, h2⟩)]
  · intro hnone hnum m hfind
    unfold resolveModel
    rw [hnone]
    have hbn : (match parseIntJS args with
        | some n =>
          if 1 ≤ n ∧ n ≤ (MODEL_CATALOG.length : Int) then MODEL_CATALOG.get? (n - 1).toNat
          else none
        | none => none) = (none : Option ModelEntry) := by
      cases hn : parseIntJS args with
      | none => rfl
      | some n => simp [hnum n hn]
    rw [hbn, hfind]
  · intro hnone hnum hfind
    unfold resolveModel
    rw [hnone]
    have hbn : (match parseIntJS args with
        | some n =>
          if 1 ≤ n ∧ n ≤ (MODEL_CATALOG.length : Int) then MODEL_CATALOG.get? (n - 1).toNat
          else none
        | none => none) = (none : Option ModelEntry) := by
      cases hn : parseIntJS args with
      | none => rfl
      | some n => simp [hnum n hn]
    rw [hbn, hfind]
  · intro hne
    unfold handleModel
    rw [if_neg hargs, if_neg hne]
    exact ⟨rfl, rfl, rfl⟩
  · intro heq
    unfold handleModel
    rw [if_neg hargs, if_pos heq]
    exact ⟨rfl, rfl⟩

theorem C7_model_resolution_order_witness :
    resolveModel "2" = ⟨"claude-sonnet-4-6", .claude, "Claude Sonnet 4.6"⟩ ∧
    (handleModel exMainGroup "tg:1" none "2").effects =
      [.killGroup "tg:1", .clearSession "main"] := by
  have h := C7_model_resolution_order "2" exMainGroup "tg:1" none (by decide)
  refine ⟨?_, ?_⟩
  · exact h.2.1 (by decide) 2 ⟨"claude-sonnet-4-6", .claude, "Claude Sonnet 4.6"⟩
      (by decide) (by decide) (by decide) (by decide)
  · exact (h.2.2.2.2.1 (by decide)).1

/-! ### C9: one escaped `<message>` element per input, in order -/

theorem mem_replaceChar {y : Char} {l : List Char} {c : Char} {r : List Char}
    (h : y ∈ replaceChar l c r) : (y ∈ l ∧ y ≠ c) ∨ y ∈ r := by
  simp only [replaceChar, List.mem_flatMap] at h
  obtain ⟨x, hx, hy⟩ := h
  by_cases hxc : x = c
  · subst hxc
    rw [if_pos rfl] at hy
    exact Or.inr hy
  · rw [if_neg hxc] at hy
    simp only [List.mem_singleton] at hy
    subst hy
    exact Or.inl ⟨hx, hxc⟩

theorem escapeXml_no_markup (s : String) :
    ∀ c ∈ (escapeXml s).data, c ≠ '<' ∧ c ≠ '>' ∧ c ≠ '"' := by
  intro c hc
  unfold escapeXml at hc
  split at hc
  · simp at hc
  · refine ⟨?_, ?_, ?_⟩ <;> intro hEq <;> subst hEq
    · rcases mem_replaceChar hc with ⟨h3, _⟩ | h
      · rcases mem_replaceChar h3 with ⟨h2, _⟩ | h
        · rcases mem_replaceChar h2 with ⟨h1, hne⟩ | h
          · exact hne rfl
          · simp at h
        · simp at h
      · simp at h
    · rcases mem_replaceChar hc with ⟨h3, _⟩ | h
      · rcases mem_replaceChar h3 with ⟨h2, hne⟩ | h
        · exact hne rfl
        · simp at h
      · simp at h
    · rcases mem_replaceChar hc with ⟨h3, hne⟩ | h
      · exact hne rfl
      · simp at h

theorem escapeXml_count_lt (s : String) : (escapeXml s).data.count '<' = 0 := by
  rw [List.count_eq_zero]
  intro hmem
  exact (escapeXml_no_markup s '<' hmem).1 rfl

theorem string_data_append (a b : String) : (a ++ b).data = a.data ++ b.data :=
  String.data_append a b

theorem messageLine_count_lt (m : NewMessage) (hts : m.timestamp.data.count '<' = 0) :
    (messageLine m).data.count '<' = 2 := by
  unfold messageLine
  simp only [string_data_append, List.count_append]
  rw [escapeXml_count_lt, escapeXml_count_lt, hts]
  decide

theorem joinLines_count (lines : List String) (c : Char) (hc : c ≠ '\n') :
    (joinLines lines).data.count c = (lines.map (fun s => s.data.count c)).sum := by
  induction lines with
  | nil => simp [joinLines]
  | cons x t ih =>
    cases t with
    | nil => simp [joinLines]
    | cons y t2 =>
      show ((x ++ "\n" ++ joinLines (y :: t2)).data.count c) = _
      simp only [string_data_append, List.count_append]
      rw [ih]
      have hnl : ("\n" : String).data.count c = 0 := by
        rw [List.count_eq_zero]
        intro hmem
        simp at hmem
        exact hc hmem
      simp [hnl]

/-- **C9.** `formatMessages` produces exactly one `<message>` element per
input message (counted by `<` occurrences: two per element plus two for
the `<messages>` envelope), in input order (the first input's line is the
first line of the envelope body), and sender names and bodies pass
through `escapeXml`, whose output contains none of `<`, `>`, `"` — so
message text cannot inject markup into the prompt envelope. -/
theorem C9_format_messages_envelope (msgs : List NewMessage) (s : String)
    (hts : ∀ m ∈ msgs, m.timestamp.data.count '<' = 0) :
    (∀ c ∈ (escapeXml s).data, c ≠ '<' ∧ c ≠ '>' ∧ c ≠ '"') ∧
    (formatMessages msgs).data.count '<' = 2 * msgs.length + 2 ∧
    (∀ m ms, formatMessages (m :: ms) =
      "<messages>\n" ++ messageLine m
        ++ (if ms.isEmpty then "" else "\n" ++ joinLines (ms.map messageLine))
        ++ "\n</messages>") := by
  refine ⟨escapeXml_no_markup s, ?_, ?_⟩
  · unfold formatMessages
    simp only [string_data_append, List.count_append]
    rw [joinLines_count _ '<' (by decide)]
    have hsum : ((msgs.map messageLine).map (fun t => t.data.count '<')).sum
        = 2 * msgs.length := by
      induction msgs with
      | nil => simp
      | cons m t ih =>
        simp only [List.map_cons, List.sum_cons]
        rw [messageLine_count_lt m (hts m (by simp)),
          ih (fun x hx => hts x (by simp [hx]))]
        simp only [List.length_cons]
        ring
    rw [hsum]
    have h1 : ("<messages>\n" : String).data.count '<' = 1 := by decide
    have h2 : ("\n</messages>" : String).data.count '<' = 1 := by decide
    rw [h1, h2]
    ring
  · intro m ms
    cases ms with
    | nil =>
      show "<messages>\n" ++ joinLines [messageLine m] ++ "\n</messages>" = _
      simp [joinLines, String.append_empty]
    | cons m2 t =>
      show "<messages>\n"
          ++ (messageLine m ++ "\n" ++ joinLines (messageLine m2 :: t.map messageLine))
          ++ "\n</messages>" = _
      simp [String.append_assoc]

theorem C9_format_messages_envelope_witness :
    (∀ c ∈ (escapeXml "a<b>\"c\"&d").data, c ≠ '<' ∧ c ≠ '>' ∧ c ≠ '"') ∧
    (formatMessages [exMsg]).data.count '<' = 2 * 1 + 2 := by
  have h := C9_format_messages_envelope [exMsg] "a<b>\"c\"&d" (by
    intro m hm
    simp only [List.mem_singleton] at hm
    subst hm
    decide)
  exact ⟨h.1, by simpa using h.2.1⟩

theorem reMatch_caret (pr : List Char) (prev : Option Char) (s : List Char) :
    reMatch ('^' :: pr) prev s = (prev.isNone && reMatch pr prev s) := by
  conv_lhs => unfold reMatch
  rw [if_pos rfl]

theorem reMatch_esc_lit (q : Char) (hq : ¬q = 'b') (pr : List Char) (prev : Option Char)
    (s : List Char) :
    reMatch ('\\' :: q :: pr) prev s =
      (match s with
       | [] => false
       | c :: cs => (c.toLower == q.toLower) && reMatch pr (some c) cs) := by
  conv_lhs => unfold reMatch
  rw [if_neg (by decide : ¬('\\' : Char) = '^'), if_pos rfl]
  show (if q = 'b' then ((wordOpt prev != wordOpt s.head?) && reMatch pr prev s)
    else match s with
      | [] => false
      | c :: cs => (c.toLower == q.toLower) && reMatch pr (some c) cs) = _
  rw [if_neg hq]

theorem reMatch_bslash_b (pr : List Char) (prev : Option Char) (s : List Char) :
    reMatch ('\\' :: 'b' :: pr) prev s
      = ((wordOpt prev != wordOpt s.head?) && reMatch pr prev s) := by
  conv_lhs => unfold reMatch
  rw [if_neg (by decide : ¬('\\' : Char) = '^'), if_pos rfl]
  show (if ('b' : Char) = 'b' then ((wordOpt prev != wordOpt s.head?) && reMatch pr prev s)
    else match s with
      | [] => false
      | c :: cs => (c.toLower == 'b'.toLower) && reMatch pr (some c) cs) = _
  rw [if_pos rfl]

theorem reMatch_lit (q : Char) (hq1 : ¬q = '^') (hq2 : ¬q = '\\') (pr : List Char)
    (prev : Option Char) (s : List Char) :
    reMatch (q :: pr) prev s =
      (match s with
       | [] => false
       | c :: cs => (c.toLower == q.toLower) && reMatch pr (some c) cs) := by
  conv_lhs => unfold reMatch
  rw [if_neg hq1, if_neg hq2]

theorem reMatch_caret_some (pr : List Char) (c : Char) (s : List Char) :
    reMatch ('^' :: pr) (some c) s = false := by
  rw [reMatch_caret]
  rfl

theorem reSearch_caret_some (pr : List Char) :
    ∀ (c : Char) (s : List Char), reSearch ('^' :: pr) (some c) s = false := by
  intro c s
  induction s generalizing c with
  | nil =>
    show (reMatch ('^' :: pr) (some c) [] || false) = false
    rw [reMatch_caret_some]
    rfl
  | cons d ds ih =>
    show (reMatch ('^' :: pr) (some c) (d :: ds) || reSearch ('^' :: pr) (some d) ds) = false
    rw [reMatch_caret_some, ih d]
    rfl

theorem special_ne_b {p : Char} (h : regexSpecialChars.contains p = true) : ¬p = 'b' := by
  intro hEq
  subst hEq
  revert h
  decide

theorem not_special_caret {p : Char} (h : regexSpecialChars.contains p = false) :
    ¬p = '^' := by
  intro hEq
  subst hEq
  revert h
  decide

theorem not_special_backslash {p : Char} (h : regexSpecialChars.contains p = false) :
    ¬p = '\\' := by
  intro hEq
  subst hEq
  revert h
  decide

theorem reMatch_escapeRegex (name : List Char) :
    ∀ (prev : Option Char) (s rest : List Char),
      reMatch (escapeRegex name ++ rest) prev s =
        (match consumeCI name prev s with
         | some pr => reMatch rest pr.1 pr.2
         | none => false) := by
  induction name with
  | nil => intro prev s rest; rfl
  | cons p ps ih =>
    intro prev s rest
    have hchunk : escapeRegex (p :: ps) ++ rest
        = escapeRegexChar p ++ (escapeRegex ps ++ rest) := by
      simp [escapeRegex, List.append_assoc]
    rw [hchunk]
    have hstep : reMatch (escapeRegexChar p ++ (escapeRegex ps ++ rest)) prev s =
        (match s with
         | [] => false
         | c :: cs => (c.toLower == p.toLower)
             && reMatch (escapeRegex ps ++ rest) (some c) cs) := by
      by_cases hsp : regexSpecialChars.contains p
      · have hesc : escapeRegexChar p = ['\\', p] := by
          unfold escapeRegexChar
          rw [if_pos hsp]
        rw [hesc]
        exact reMatch_esc_lit p (special_ne_b hsp) (escapeRegex ps ++ rest) prev s
      · have hsp' : regexSpecialChars.contains p = false := by
          revert hsp
          cases regexSpecialChars.contains p <;> simp
        have hesc : escapeRegexChar p = [p] := by
          unfold escapeRegexChar
          rw [if_neg (by rw [hsp']; exact Bool.false_ne_true)]
        rw [hesc]
        exact reMatch_lit p (not_special_caret hsp') (not_special_backslash hsp')
          (escapeRegex ps ++ rest) prev s
    rw [hstep]
    cases s with
    | nil => rfl
    | cons c cs =>
      show ((c.toLower == p.toLower) && reMatch (escapeRegex ps ++ rest) (some c) cs)
        = (match (if c.toLower == p.toLower then consumeCI ps (some c) cs else none) with
           | some pr => reMatch rest pr.1 pr.2
           | none => false)
      by_cases hci : (c.toLower == p.toLower) = true
      · rw [if_pos hci, hci, Bool.true_and, ih (some c) cs rest]
      · have hci' : (c.toLower == p.toLower) = false := by
          revert hci
          cases c.toLower == p.toLower <;> simp
        rw [if_neg hci, hci', Bool.false_and]

theorem reMatch_boundary (prev : Option Char) (s : List Char) :
    reMatch ['\\', 'b'] prev s = (wordOpt prev != wordOpt s.head?) := by
  rw [show (['\\', 'b'] : List Char) = '\\' :: 'b' :: [] from rfl, reMatch_bslash_b]
  show (_ && true) = _
  rw [Bool.and_true]

theorem getLast?_cons_match (a : α) (l : List α) :
    (a :: l).getLast? = (match l.getLast? with
      | some d => some d
      | none => some a) := by
  cases l with
  | nil => rfl
  | cons b t =>
    rw [List.getLast?_cons_cons, List.getLast?_eq_getLast (b :: t) (by simp)]

theorem lastOr_cons (a : α) (l : List α) (dflt : Option α) :
    lastOr (a :: l) dflt = lastOr l (some a) := by
  unfold lastOr
  cases hl : l.getLast? with
  | some d => rw [getLast?_cons_match, hl]
  | none => rw [getLast?_cons_match, hl]

theorem lastOr_none (l : List α) : lastOr l none = l.getLast? := by
  unfold lastOr
  cases l.getLast? <;> rfl

theorem consumeCI_boundary (name : List Char) :
    ∀ (prev : Option Char) (s : List Char),
      (match consumeCI name prev s with
       | some pr => (wordOpt pr.1 != wordOpt pr.2.head?)
       | none => false) =
      (ciPrefix name s &&
        (wordOpt (lastOr (s.take name.length) prev)
          != wordOpt ((s.drop name.length).head?))) := by
  induction name with
  | nil =>
    intro prev s
    rfl
  | cons p ps ih =>
    intro prev s
    cases s with
    | nil => rfl
    | cons c cs =>
      show (match (if c.toLower == p.toLower then consumeCI ps (some c) cs else none) with
        | some pr => (wordOpt pr.1 != wordOpt pr.2.head?)
        | none => false) = _
      by_cases hci : (c.toLower == p.toLower) = true
      · rw [if_pos hci, ih (some c) cs]
        show _ = (((c.toLower == p.toLower) && ciPrefix ps cs) && _)
        rw [hci, Bool.true_and]
        rw [show (c :: cs).take ((p :: ps).length) = c :: (cs.take ps.length) from rfl]
        rw [lastOr_cons]
        rw [show ((c :: cs).drop ((p :: ps).length)) = cs.drop ps.length from rfl]
      · have hci2 : (c.toLower == p.toLower) = false := by
          revert hci
          cases c.toLower == p.toLower <;> simp
        rw [if_neg hci]
        show false = (((c.toLower == p.toLower) && ciPrefix ps cs) && _)
        rw [hci2, Bool.false_and, Bool.false_and]

theorem triggerTest_eq_spec (name s : String) :
    triggerTest name s = specTriggerMatch name s := by
  unfold triggerTest specTriggerMatch
  have hsearch : reSearch (triggerSource name) none s.data
      = reMatch (triggerSource name) none s.data := by
    cases hd : s.data with
    | nil =>
      show (reMatch (triggerSource name) none [] || false) = _
      rw [Bool.or_false]
    | cons c cs =>
      show (reMatch (triggerSource name) none (c :: cs)
        || reSearch (triggerSource name) (some c) cs) = _
      rw [show triggerSource name = '^' :: ('@' :: (escapeRegex name.data ++ ['\\', 'b']))
          from rfl,
        reSearch_caret_some, Bool.or_false]
  rw [hsearch]
  rw [show triggerSource name = '^' :: ('@' :: (escapeRegex name.data ++ ['\\', 'b']))
      from rfl,
    reMatch_caret, show Option.isNone (none : Option Char) = true from rfl, Bool.true_and,
    reMatch_lit '@' (by decide) (by decide)]
  cases hd : s.data with
  | nil => rfl
  | cons c cs =>
    show ((c.toLower == '@'.toLower)
        && reMatch (escapeRegex name.data ++ ['\\', 'b']) (some c) cs) = _
    rw [reMatch_escapeRegex name.data (some c) cs ['\\', 'b']]
    have hb : (match consumeCI name.data (some c) cs with
        | some pr => reMatch ['\\', 'b'] pr.1 pr.2
        | none => false) =
      (match consumeCI name.data (some c) cs with
        | some pr => (wordOpt pr.1 != wordOpt pr.2.head?)
        | none => false) := by
      cases consumeCI name.data (some c) cs with
      | none => rfl
      | some pr => exact reMatch_boundary pr.1 pr.2
    rw [hb, consumeCI_boundary name.data (some c) cs]
    rw [← lastOr_none ((c :: cs).take (name.data.length + 1))]
    rw [show (c :: cs).take (name.data.length + 1) = c :: (cs.take name.data.length) from rfl]
    rw [lastOr_cons]
    rw [show ((c :: cs).drop (name.data.length + 1)) = cs.drop name.data.length from rfl]
    rw [show ciPrefix ('@' :: name.data) (c :: cs)
        = ((c.toLower == '@'.toLower) && ciPrefix name.data cs) from rfl]
    rw [Bool.and_assoc]

/-- **C2.** For a non-main group whose `requiresTrigger` flag is not
explicitly `false`, `processGroupMessages` dispatches a sandbox only when
at least one pending message, after trimming, matches `TRIGGER_PATTERN`;
and that pattern matches exactly the strings that begin with `'@'`
followed by the configured assistant name compared case-insensitively,
with a word boundary immediately after the name. -/
theorem C2_trigger_gating (assistantName : String) (group : RegisteredGroup)
    (chatJid prevCursor : String) (missed : List NewMessage) (useStreaming : Bool)
    (frames : List ContainerOutput) (agentResult : String)
    (hmain : group.folder ≠ MAIN_GROUP_FOLDER)
    (hreq : group.requiresTrigger ≠ some false) :
    ((processGroupMessages assistantName group chatJid prevCursor missed useStreaming
        frames agentResult).spawned = true →
      ∃ m ∈ missed, triggerTest assistantName (jsTrimS m.content) = true) ∧
    (∀ s, triggerTest assistantName s = specTriggerMatch assistantName s) := by
  constructor
  · intro hsp
    unfold processGroupMessages at hsp
    by_cases hempty : missed.isEmpty
    · rw [if_pos hempty] at hsp
      simp at hsp
    · rw [if_neg hempty] at hsp
      by_cases htrig :
          missed.any (fun m => triggerTest assistantName (jsTrimS m.content)) = true
      · obtain ⟨m, hm, ht⟩ := List.any_eq_true.mp htrig
        exact ⟨m, hm, ht⟩
      · rw [if_pos ⟨hmain, hreq, htrig⟩] at hsp
        simp at hsp
  · exact fun s => triggerTest_eq_spec assistantName s

theorem C2_trigger_gating_witness :
    (∃ m ∈ [exTrigMsg], triggerTest "Andy" (jsTrimS m.content) = true) ∧
    triggerTest "Andy" "@ANDY hi" = specTriggerMatch "Andy" "@ANDY hi" ∧
    triggerTest "Andy" "@Andyx hi" = specTriggerMatch "Andy" "@Andyx hi" := by
  have h := C2_trigger_gating "Andy" exTeamGroup "tg:2" "" [exTrigMsg] true [] "success"
    (by decide) (by decide)
  exact ⟨h.1 (by decide), h.2 "@ANDY hi", h.2 "@Andyx hi"⟩

end Intercom

